import Mathlib

/-!
Shallow embedding of the hierarchical retrieval / multi-tenant isolation core
of the `rag` repository (src/api/loading.py, src/api/retrieval.py,
src/api/api.py), together with theorems settling the frozen claims about it.

Modelling conventions:
* Python `None`-able metadata values become `Option`; a metadata key that the
  code `pop`s is represented by the field being `none`.
* The external format loaders (TextLoader, PyPDFLoader, ...) are opaque: the
  input corpus is the list of successfully loaded raw documents (dot-files,
  unsupported extensions and corrupt files are skipped upstream and therefore
  simply absent from the corpus).  Each raw document carries the directory
  chain of the file relative to the knowledge-base root.
* `CharacterTextSplitter.split_documents` is opaque: it is a parameter
  `split : String → List String`; every produced chunk receives a copy of the
  source document's metadata, exactly as in langchain.
* The Chroma nearest-neighbour search is opaque: a retriever query applies the
  exact-match metadata filter and then an arbitrary ranking function `rank`
  (the similarity search), truncated to `k = 3`.  The only assumption ever
  made about `rank` is that it returns elements of its input.
* The ChatOpenAI completion call is opaque: a parameter
  `llm : List Message → String`; `llm_instance = None` is modelled by an
  `Option` around it.
* Python `set(...)` construction is modelled by `pySetOf`, which keeps the
  distinct values of a list; the code only consults membership and size.
-/

namespace Rag

/-- A chunk (langchain `Document`) with the metadata keys this code base
reads or writes.  An absent dictionary key is `none`.  The remaining
PDF-extraction keys (`producer`, `creator`, ...) are stripped before any code
modelled here consults them and are not represented. -/
structure Chunk where
  page_content : String
  source : Option String
  page : Option Nat
  company : Option String
  department : Option String
  employee : Option String
  hierarchy_key : Option String
  doc_type : Option String
  deriving DecidableEq, Repr

/-- A successfully loaded raw document before metadata attachment:
`dirParts` is the directory chain of the containing directory relative to the
knowledge-base root (`[]` for a file directly at the root). -/
structure RawDoc where
  dirParts : List String
  text : String
  source : Option String
  page : Option Nat
  deriving DecidableEq, Repr

/-- Python truthiness of an optional string (`None` and `""` are falsy). -/
def otruthy : Option String → Bool
  | none => false
  | some s => s ≠ ""

/-- Python f-string rendering of an optional value (`f"{None}"` is `"None"`). -/
def fstr : Option String → String
  | none => "None"
  | some s => s

/-- Python `str.lower()` (kernel-computable model of `String.toLower`). -/
def strToLower (s : String) : String := String.mk (s.data.map Char.toLower)

/-- Python `str.endswith(suffix)` (kernel-computable model of `String.endsWith`). -/
def strEndsWith (s suffix : String) : Bool := suffix.data.isSuffixOf s.data

/-- Python `set(...)` of a list, as the list of its distinct values (the code
only consults membership and cardinality of the set). -/
def pySetOf {α : Type} [DecidableEq α] : List α → List α
  | [] => []
  | a :: as => if a ∈ as then pySetOf as else a :: pySetOf as

-- ---------------------------------------------------------------------------
-- loading.py: path classification and metadata assignment
-- ---------------------------------------------------------------------------

def unknownCompany : String := "unknown_company"
def unknownDepartment : String := "unknown_department"
def unknownEmployee : String := "unknown_employee"

/-- Model of `os.path.relpath(root, kb).split(os.sep)` with empty parts filtered out:
for the knowledge-base root itself `relpath` is `"."`, so the part list is
`["."]`, never empty (loading.py lines 35-36, api.py lines 51-52). -/
def pathPartsOfDir (dirParts : List String) : List String :=
  let parts := dirParts.filter (fun p => p ≠ "")
  if parts.isEmpty then ["."] else parts

/-- loading.py line 37: `company = path_parts[0] if len(path_parts) > 0 else "unknown_company"`. -/
def companyOf (parts : List String) : String := (parts.get? 0).getD unknownCompany

/-- loading.py line 40. -/
def departmentOf (parts : List String) : String := (parts.get? 1).getD unknownDepartment

/-- loading.py line 41. -/
def employeeOf (parts : List String) : String := (parts.get? 2).getD unknownEmployee

/-- loading.py lines 42-49: `doc_type` computation. -/
def docTypeOf (parts : List String) : String :=
  let c := companyOf parts
  let d := departmentOf parts
  let e := employeeOf parts
  if e ≠ unknownEmployee then c ++ "_" ++ d ++ "_" ++ e
  else if d ≠ unknownDepartment then c ++ "_" ++ d
  else if c ≠ unknownCompany then c
  else "general"

/-- loading.py lines 71-76: the `hierarchy_key` attached at load time
(`none` when no branch applies, i.e. the key is never set). -/
def hierarchyKeyOf (parts : List String) : Option String :=
  let c := companyOf parts
  let d := departmentOf parts
  let e := employeeOf parts
  if e ≠ unknownEmployee then some (c ++ "|" ++ d ++ "|" ++ e)
  else if d ≠ unknownDepartment then some (c ++ "|" ++ d)
  else if c ≠ unknownCompany then some c
  else none

/-- The (organization, subunit, individual) identity a document's path is
classified to (before sentinel cleanup). -/
def hierarchyTriple (parts : List String) : String × String × String :=
  (companyOf parts, departmentOf parts, employeeOf parts)

/-- loading.py line 38: `if company_name and company != company_name: continue`. -/
def passesCompanyFilter (companyFilter : Option String) (parts : List String) : Bool :=
  match companyFilter with
  | none => true
  | some cf => if cf = "" then true else companyOf parts = cf

/-- One chunk produced for a document: the text fragment plus a copy of the
metadata attached in loading.py lines 66-76 (pre-cleanup, so the sentinel
strings are still present). -/
def rawChunkOf (rd : RawDoc) (piece : String) : Chunk :=
  let parts := pathPartsOfDir rd.dirParts
  { page_content := piece
    source := rd.source
    page := rd.page
    company := some (companyOf parts)
    department := some (departmentOf parts)
    employee := some (employeeOf parts)
    hierarchy_key := hierarchyKeyOf parts
    doc_type := some (docTypeOf parts) }

/-- loading.py lines 101-106: PDF-incidental metadata (of which this model
carries only `page`) is deleted when the source ends in `.pdf`. -/
def stripPdfMetadata (c : Chunk) : Chunk :=
  if strEndsWith (strToLower (c.source.getD "")) ".pdf" then { c with page := none } else c

/-- loading.py lines 107-117: pop the `unknown_*` sentinel values, and every
level below a popped level. -/
def cleanUnknown (c : Chunk) : Chunk :=
  if c.company = some unknownCompany then
    { c with company := none, department := none, employee := none }
  else if c.department = some unknownDepartment then
    { c with department := none, employee := none }
  else if c.employee = some unknownEmployee then
    { c with employee := none }
  else c

/-- loading.py lines 119-130: ensure `hierarchy_key` is set whenever the
chunk still has (truthy) company information. -/
def ensureHierarchyKey (c : Chunk) : Chunk :=
  if otruthy c.company ∧ ¬ (otruthy c.hierarchy_key = true) then
    let comp := fstr c.company
    let key :=
      if otruthy c.employee then comp ++ "|" ++ fstr c.department ++ "|" ++ fstr c.employee
      else if otruthy c.department then comp ++ "|" ++ fstr c.department
      else comp
    { c with hierarchy_key := some key }
  else c

/-- The whole per-chunk cleanup loop of loading.py lines 100-133. -/
def cleanupChunk (c : Chunk) : Chunk :=
  ensureHierarchyKey (cleanUnknown (stripPdfMetadata c))

/-- loading.py `load_and_chunk_documents`: walk (= iterate the corpus), apply
the company filter, attach metadata, split into chunks (each chunk inheriting
the document metadata), then run the cleanup loop. -/
def load_and_chunk_documents (split : String → List String)
    (companyFilter : Option String) (corpus : List RawDoc) : List Chunk :=
  let docs := corpus.filter
    (fun rd => passesCompanyFilter companyFilter (pathPartsOfDir rd.dirParts))
  let chunks := (docs.map (fun rd => (split rd.text).map (rawChunkOf rd))).flatten
  chunks.map cleanupChunk

-- ---------------------------------------------------------------------------
-- api.py lifespan: startup protocol building the per-company store registry
-- ---------------------------------------------------------------------------

/-- api.py lines 49-54: companies found by walking the knowledge base — the
first path segment of every walked directory (the root contributes `"."`).
Directories without any loadable document are not represented in the corpus;
they would only contribute empty stores. -/
def startupCompanies (corpus : List RawDoc) : List String :=
  pySetOf (corpus.map (fun rd => companyOf (pathPartsOfDir rd.dirParts)))

/-- api.py line 67: `set(doc.metadata.get('company') for doc in document_chunks)`. -/
def companiesInChunks (chunks : List Chunk) : List (Option String) :=
  pySetOf (chunks.map (fun c => c.company))

/-- api.py line 68: the cross-company contamination test. -/
def contaminationDetected (company : String) (chunks : List Chunk) : Bool :=
  let cs := companiesInChunks chunks
  decide (1 < cs.length) || (decide (cs.length = 1) && ! (decide (some company ∈ cs)))

/-- api.py lines 49-82: the startup protocol.  For each company found under
the root (skipping `''`, `'.'` and `'__pycache__'`), load that company's
chunks with the company filter; abort the company on contamination; otherwise
register its store (the chunk list stands for the vector-store content). -/
def startup (split : String → List String) (corpus : List RawDoc) :
    List (String × List Chunk) :=
  (startupCompanies corpus).filterMap (fun company =>
    if company = "" ∨ company = "." ∨ company = "__pycache__" then none
    else
      let chunks := load_and_chunk_documents split (some company) corpus
      if contaminationDetected company chunks then none
      else some (company, chunks))

/-- Python dict lookup `retrievers[company]` / membership `company in retrievers`. -/
def lookupStore (registry : List (String × List Chunk)) (company : String) :
    Option (List Chunk) :=
  (registry.find? (fun p => decide (p.1 = company))).map (fun p => p.2)

-- ---------------------------------------------------------------------------
-- api.py chat_endpoint: level selection, filters, retrieval, dedup, shaping
-- ---------------------------------------------------------------------------

/-- The four retrieval levels (retrieval.py lines 26-31). -/
inductive LevelKey
  | employee_level
  | department_level
  | company_level
  | general
  deriving DecidableEq, Repr

/-- api.py lines 169-180: which levels to query, in order. -/
def selectLevels (company : String) (department employee : Option String) :
    List LevelKey :=
  (if company ≠ "" ∧ otruthy department ∧ otruthy employee
    then [LevelKey.employee_level] else []) ++
  (if company ≠ "" ∧ otruthy department then [LevelKey.department_level] else []) ++
  (if company ≠ "" then [LevelKey.company_level] else []) ++
  [LevelKey.general]

/-- The exact-match where-clauses the endpoint passes to Chroma. -/
inductive ChromaFilter
  | byHierarchyKey (k : String)
  | byCompany (c : String)
  | noFilter
  deriving DecidableEq, Repr

/-- Exact-match metadata filtering as Chroma applies it. -/
def chunkMatches : ChromaFilter → Chunk → Bool
  | ChromaFilter.byHierarchyKey k, c => c.hierarchy_key = some k
  | ChromaFilter.byCompany comp, c => c.company = some comp
  | ChromaFilter.noFilter, _ => true

/-- api.py lines 189-218: the filter built for a level (`none` = the level is
skipped by one of the `continue` guards; for `general` with a falsy company
the query runs with no filter at all, line 218). -/
def levelFilter (company : String) (department employee : Option String) :
    LevelKey → Option ChromaFilter
  | LevelKey.employee_level =>
      if company ≠ "" ∧ otruthy department ∧ otruthy employee then
        some (ChromaFilter.byHierarchyKey
          (company ++ "|" ++ fstr department ++ "|" ++ fstr employee))
      else none
  | LevelKey.department_level =>
      if company ≠ "" ∧ otruthy department then
        some (ChromaFilter.byHierarchyKey (company ++ "|" ++ fstr department))
      else none
  | LevelKey.company_level =>
      if company ≠ "" then some (ChromaFilter.byHierarchyKey company) else none
  | LevelKey.general =>
      if company ≠ "" then some (ChromaFilter.byCompany company)
      else some ChromaFilter.noFilter

/-- One retriever query (retrieval.py `k = 3`, api.py line 216/220): Chroma
applies the metadata filter, the opaque similarity search ranks the matches,
the top 3 are returned. -/
def getRelevantDocuments (rank : List Chunk → List Chunk) (store : List Chunk)
    (f : ChromaFilter) : List Chunk :=
  (rank (store.filter (fun c => chunkMatches f c))).take 3

/-- The only assumption made about the opaque similarity search: it returns
elements of the (already filtered) candidate list. -/
def ValidRanker (rank : String → List Chunk → List Chunk) : Prop :=
  ∀ q l x, x ∈ rank q l → x ∈ l

/-- api.py lines 184-232: `level_docs` — query each selected level and record
the levels that returned at least one document, in query order. -/
def levelDocsOf (rank : String → List Chunk → List Chunk) (store : List Chunk)
    (company : String) (department employee : Option String) (question : String) :
    List (LevelKey × List Chunk) :=
  (selectLevels company department employee).filterMap (fun key =>
    (levelFilter company department employee key).bind (fun f =>
      let docs := getRelevantDocuments (rank question) store f
      if docs.isEmpty then none else some (key, docs)))

-- Deduplication (api.py lines 235-248)

/-- The duplicate-identification key of api.py lines 241-242. -/
def docKey (c : Chunk) :
    String × Option String × Option Nat × Option String × Option String × Option String :=
  (c.page_content, c.source, c.page, c.company, c.department, c.employee)

/-- The `unique_docs` insertion loop: keep a chunk iff its key was not seen
before; a Python dict preserves insertion order, so `values()` lists the
first occurrences in input order. -/
def dedupGo (seen : List (String × Option String × Option Nat × Option String ×
    Option String × Option String)) : List Chunk → List Chunk
  | [] => []
  | c :: cs =>
      if docKey c ∈ seen then dedupGo seen cs
      else c :: dedupGo (docKey c :: seen) cs

/-- api.py lines 236-248: `final_retrieved_docs`. -/
def dedupDocs (l : List Chunk) : List Chunk := dedupGo [] l

/-- Modelled from the spec: "a chunk is a duplicate of another iff (text
content, source identifier, page/offset, organization, subunit, individual)
are all equal; keep first occurrence" — keep the head, drop every later chunk
with the same key, recurse. -/
def dedupDocsSpec : List Chunk → List Chunk
  | [] => []
  | c :: cs =>
      c :: dedupDocsSpec (cs.filter (fun d => decide (docKey d ≠ docKey c)))
  termination_by l => l.length
  decreasing_by
    simp only [List.length_cons]
    exact Nat.lt_succ_of_le (List.length_filter_le _ cs)

-- Context shaping (api.py lines 256-290)

/-- The section labels of api.py lines 266-284. -/
def sectionLabel : LevelKey → String
  | LevelKey.employee_level => "EMPLOYEE-SPECIFIC INFORMATION:\n"
  | LevelKey.department_level => "DEPARTMENT-LEVEL INFORMATION:\n"
  | LevelKey.company_level => "COMPANY-LEVEL INFORMATION:\n"
  | LevelKey.general => "GENERAL COMPANY INFORMATION:\n"

/-- The fixed most-to-least-specific emission order of api.py lines 263-285. -/
def sectionOrder : List LevelKey :=
  [LevelKey.employee_level, LevelKey.department_level,
   LevelKey.company_level, LevelKey.general]

/-- The join `"\n\n".join(doc.page_content for doc in docs)`. -/
def joinContents (docs : List Chunk) : String :=
  String.intercalate "\n\n" (docs.map (fun c => c.page_content))

/-- api.py lines 256-285: the labeled context sections, built from the raw
per-level document lists recorded in `level_docs`. -/
def contextSections (lds : List (LevelKey × List Chunk)) : List String :=
  sectionOrder.filterMap (fun key =>
    match lds.find? (fun p => decide (p.1 = key)) with
    | some p => if p.2.isEmpty then none else some (sectionLabel key ++ joinContents p.2)
    | none => none)

/-- api.py line 288: `context_text`. -/
def contextTextOf (sections : List String) : String :=
  if sections.isEmpty then "" else "\n\n" ++ String.intercalate "\n\n" sections

-- Prompt assembly and the endpoint itself (api.py lines 293-332)

inductive Role
  | system
  | user
  | assistant
  deriving DecidableEq, Repr

structure Message where
  role : Role
  content : String
  deriving DecidableEq, Repr

/-- api.py lines 305-316 (the f-string system prompt). -/
def systemPrompt (company : String) (contextText : String) : String :=
  "You are a helpful AI assistant for " ++ company ++
  ". Use the following hierarchical context to answer the user's question. \n\n" ++
  "The context is organized by levels of specificity:\n" ++
  "- EMPLOYEE-SPECIFIC INFORMATION: Most relevant to the specific employee\n" ++
  "- DEPARTMENT-LEVEL INFORMATION: Relevant to the department\n" ++
  "- COMPANY-LEVEL INFORMATION: General company information\n" ++
  "- GENERAL COMPANY INFORMATION: Broad company context\n\n" ++
  "Prioritize information from more specific levels (employee > department > company > general) when available. \n" ++
  "If you don't know the answer from the context, say you don't know.\n\n" ++
  "Context:" ++ contextText

/-- api.py lines 295-321: history turns, system message at the front, the
current question last. -/
def buildMessages (company contextText question : String)
    (history : List (String × String)) : List Message :=
  { role := Role.system, content := systemPrompt company contextText } ::
    ((history.map (fun p =>
        [Message.mk Role.user p.1, Message.mk Role.assistant p.2])).flatten ++
      [{ role := Role.user, content := question }])

inductive ChatError
  | serviceUnavailable
  | unknownOrganization
  deriving DecidableEq, Repr

structure ChatResponse where
  answer : String
  chat_history : List (String × String)
  deriving DecidableEq, Repr

instance : DecidableEq (Except ChatError ChatResponse) := fun x y =>
  match x, y with
  | Except.error a, Except.error b => decidable_of_iff (a = b) (by simp)
  | Except.error _, Except.ok _ => isFalse (by simp)
  | Except.ok _, Except.error _ => isFalse (by simp)
  | Except.ok a, Except.ok b => decidable_of_iff (a = b) (by simp)

/-- api.py line 253. -/
def noInfoAnswer : String :=
  "I couldn't find any relevant information in the knowledge base."

/-- api.py `chat_endpoint` (lines 136-332): readiness guard, company lookup,
multi-level retrieval, dedup, empty-result short-circuit, context shaping,
LLM call, history append. -/
def chat_endpoint (rank : String → List Chunk → List Chunk)
    (llm? : Option (List Message → String))
    (registry : List (String × List Chunk))
    (question : String) (history : List (String × String))
    (company : String) (department employee : Option String) :
    Except ChatError ChatResponse :=
  if registry.isEmpty ∨ llm?.isNone then Except.error ChatError.serviceUnavailable
  else
    match lookupStore registry company with
    | none => Except.error ChatError.unknownOrganization
    | some store =>
      let lds := levelDocsOf rank store company department employee question
      let finalDocs := dedupDocs ((lds.map (fun p => p.2)).flatten)
      if finalDocs.isEmpty then
        Except.ok { answer := noInfoAnswer
                    chat_history := history ++ [(question, noInfoAnswer)] }
      else
        let contextText := contextTextOf (contextSections lds)
        let answer := (llm?.getD (fun _ => "")) (buildMessages company contextText question history)
        Except.ok { answer := answer
                    chat_history := history ++ [(question, answer)] }

-- ---------------------------------------------------------------------------
-- Deduplication lemmas
-- ---------------------------------------------------------------------------

/-- The set of keys recorded after `dedupGo` has processed a list. -/
def seenAfter (seen : List (String × Option String × Option Nat × Option String ×
    Option String × Option String)) : List Chunk →
    List (String × Option String × Option Nat × Option String ×
      Option String × Option String)
  | [] => seen
  | c :: cs =>
      if docKey c ∈ seen then seenAfter seen cs
      else seenAfter (docKey c :: seen) cs

/-- Modelled from the spec: the HierarchyKey is "the present levels joined by
a fixed separator; absent trailing levels are simply omitted, never encoded
as placeholders", presence being the document's directory position (first
segment organization, second subunit, third individual, deeper segments
ignored); zero segments is the fully-absent path with no key. -/
def hierarchyKeySpecOfParts (dirParts : List String) : Option String :=
  match (dirParts.filter (fun p => p ≠ "")).take 3 with
  | [] => none
  | [c] => some c
  | [c, d] => some (c ++ "|" ++ d)
  | c :: d :: e :: _ => some (c ++ "|" ++ d ++ "|" ++ e)

/-- Modelled from the spec: "group surviving chunks by the level they were
retrieved from" — the level that retrieved a surviving chunk, read as the
first (most specific) level whose result list contains it, consistent with
the keep-first-occurrence deduplication order. -/
def firstLevelOf (lds : List (LevelKey × List Chunk)) (c : Chunk) : Option LevelKey :=
  (lds.find? (fun p => decide (c ∈ p.2))).map (fun p => p.1)

/-- Modelled from the spec: result shaping over the chunks that survived
deduplication, grouped by the level they were retrieved from, concatenated
within each group, emitted most-to-least specific with empty groups
omitted. -/
def contextSectionsSpec (lds : List (LevelKey × List Chunk)) : List String :=
  let survivors := dedupDocs ((lds.map (fun p => p.2)).flatten)
  sectionOrder.filterMap (fun key =>
    let group := survivors.filter (fun c => decide (firstLevelOf lds c = some key))
    if group.isEmpty then none
    else some (sectionLabel key ++ joinContents group))

-- ---------------------------------------------------------------------------
-- Concrete fixtures used by the witness theorems
-- ---------------------------------------------------------------------------

/-- A degenerate splitter: the whole document is one chunk. -/
def split1 : String → List String := fun s => [s]

/-- The identity similarity search: every filtered candidate is returned in
store order. -/
def rankId : String → List Chunk → List Chunk := fun _ l => l

/-- A constant completion service. -/
def llmK : List Message → String := fun _ => "ok"

/-- Two organizations, one document each. -/
def corpusAB : List RawDoc :=
  [{ dirParts := ["c1"], text := "alpha", source := none, page := none },
   { dirParts := ["c2"], text := "beta", source := none, page := none }]

def storeAB : List Chunk := (lookupStore (startup split1 corpusAB) "c1").getD []

def chunkA : Chunk :=
  cleanupChunk (rawChunkOf { dirParts := ["c1"], text := "alpha", source := none, page := none } "alpha")

/-- A corpus with a root-level document next to one organization. -/
def corpusRoot : List RawDoc :=
  [{ dirParts := [], text := "rootdoc", source := none, page := none },
   { dirParts := ["c1"], text := "alpha", source := none, page := none }]

def storeRoot : List Chunk := (lookupStore (startup split1 corpusRoot) "c1").getD []

-- ---------------------------------------------------------------------------
-- Theorems
-- ---------------------------------------------------------------------------

theorem mem_pySetOf {α : Type} [DecidableEq α] {a : α} {l : List α} :
    a ∈ pySetOf l ↔ a ∈ l := by
  induction l with
  | nil => simp [pySetOf]
  | cons b bs ih =>
    by_cases hb : b ∈ bs
    · simp only [pySetOf, if_pos hb, List.mem_cons, ih]
      constructor
      · exact Or.inr
      · rintro (rfl | h)
        · exact hb
        · exact h
    · simp [pySetOf, if_neg hb, List.mem_cons, ih]

/-- The trivially valid ranker property of `rankId`. -/
theorem rankId_valid : ValidRanker rankId := fun _ _ _ h => h

theorem dedupGo_append (seen) (l₁ l₂ : List Chunk) :
    dedupGo seen (l₁ ++ l₂) = dedupGo seen l₁ ++ dedupGo (seenAfter seen l₁) l₂ := by
  induction l₁ generalizing seen with
  | nil => simp [dedupGo, seenAfter]
  | cons c cs ih =>
    by_cases h : docKey c ∈ seen
    · simp [dedupGo, seenAfter, if_pos h, ih]
    · simp [dedupGo, seenAfter, if_neg h, ih]

theorem mem_seenAfter_of_mem_seen {x} {seen} (l : List Chunk) (hx : x ∈ seen) :
    x ∈ seenAfter seen l := by
  induction l generalizing seen with
  | nil => exact hx
  | cons c cs ih =>
    by_cases h : docKey c ∈ seen
    · simpa [seenAfter, if_pos h] using ih hx
    · simp only [seenAfter, if_neg h]
      exact ih (List.mem_cons_of_mem _ hx)

theorem docKey_mem_seenAfter {c : Chunk} {l : List Chunk} (seen) (hc : c ∈ l) :
    docKey c ∈ seenAfter seen l := by
  induction l generalizing seen with
  | nil => cases hc
  | cons b bs ih =>
    rcases List.mem_cons.mp hc with rfl | hmem
    · by_cases h : docKey c ∈ seen
      · simp only [seenAfter, if_pos h]
        exact mem_seenAfter_of_mem_seen bs h
      · simp only [seenAfter, if_neg h]
        exact mem_seenAfter_of_mem_seen bs (List.mem_cons_self _ _)
    · by_cases h : docKey b ∈ seen
      · simp only [seenAfter, if_pos h]
        exact ih seen hmem
      · simp only [seenAfter, if_neg h]
        exact ih _ hmem

theorem dedupGo_eq_nil_of_all_seen {seen} {l : List Chunk}
    (h : ∀ c ∈ l, docKey c ∈ seen) : dedupGo seen l = [] := by
  induction l with
  | nil => rfl
  | cons c cs ih =>
    have hc : docKey c ∈ seen := h c (List.mem_cons_self _ _)
    simp only [dedupGo, if_pos hc]
    exact ih (fun d hd => h d (List.mem_cons_of_mem _ hd))

theorem dedupDocs_self_append (l : List Chunk) : dedupDocs (l ++ l) = dedupDocs l := by
  unfold dedupDocs
  rw [dedupGo_append]
  have h2 : dedupGo (seenAfter [] l) l = [] :=
    dedupGo_eq_nil_of_all_seen (fun c hc => docKey_mem_seenAfter [] hc)
  simp [h2]

theorem dedupGo_eq_spec (l : List Chunk) (seen) :
    dedupGo seen l = dedupDocsSpec (l.filter (fun c => decide (docKey c ∉ seen))) := by
  induction l generalizing seen with
  | nil => simp [dedupGo, dedupDocsSpec]
  | cons c cs ih =>
    by_cases h : docKey c ∈ seen
    · have : (fun c => decide (docKey c ∉ seen)) c = false := by simpa using h
      rw [List.filter_cons_of_neg (by simpa using h)]
      simp only [dedupGo, if_pos h]
      exact ih seen
    · rw [List.filter_cons_of_pos (by simpa using h)]
      simp only [dedupGo, if_neg h, dedupDocsSpec]
      congr 1
      rw [ih (docKey c :: seen), List.filter_filter]
      congr 1
      apply List.filter_congr
      intro d _
      by_cases hd : docKey d = docKey c
      · simp [hd, List.mem_cons]
      · by_cases hds : docKey d ∈ seen <;> simp [hd, hds, List.mem_cons]

theorem dedupDocs_eq_spec (l : List Chunk) : dedupDocs l = dedupDocsSpec l := by
  unfold dedupDocs
  rw [dedupGo_eq_spec]
  congr 1
  exact List.filter_eq_self.mpr (fun a _ => by simp)

-- ---------------------------------------------------------------------------
-- Startup / registry lemmas
-- ---------------------------------------------------------------------------

/-- Passing the cross-company contamination test of api.py line 68 forces
every chunk of the candidate store to carry exactly the company being
initialized. -/
theorem company_eq_of_not_contaminated {org : String} {chunks : List Chunk}
    (h : contaminationDetected org chunks = false) :
    ∀ c ∈ chunks, c.company = some org := by
  intro c hc
  have hmem : c.company ∈ companiesInChunks chunks :=
    mem_pySetOf.mpr (List.mem_map_of_mem _ hc)
  simp only [contaminationDetected, Bool.or_eq_false_iff, Bool.and_eq_false_iff,
    decide_eq_false_iff_not, not_lt, Bool.not_eq_false', decide_eq_true_eq] at h
  obtain ⟨h1, h2⟩ := h
  have hlen1 : (companiesInChunks chunks).length = 1 := by
    have hpos : 0 < (companiesInChunks chunks).length :=
      List.length_pos.mpr (List.ne_nil_of_mem hmem)
    omega
  have horg : some org ∈ companiesInChunks chunks := by
    rcases h2 with h2 | h2
    · exact absurd hlen1 (by simpa using h2)
    · exact h2
  obtain ⟨a, ha⟩ := List.length_eq_one.mp hlen1
  rw [ha] at hmem horg
  simp only [List.mem_singleton] at hmem horg
  rw [hmem, horg]

/-- Unpacking a successful registry lookup after startup: the organization
passed the name guard, its load was contamination-free, and the store is
exactly the chunk list loaded for it with the company filter. -/
theorem lookupStore_startup {split : String → List String} {corpus : List RawDoc}
    {org : String} {S : List Chunk}
    (h : lookupStore (startup split corpus) org = some S) :
    org ≠ "" ∧ org ≠ "." ∧ org ≠ "__pycache__" ∧
    contaminationDetected org (load_and_chunk_documents split (some org) corpus) = false ∧
    S = load_and_chunk_documents split (some org) corpus := by
  unfold lookupStore at h
  obtain ⟨p, hfind, hmap⟩ := Option.map_eq_some'.mp h
  have hp1 : p.1 = org := by
    have := List.find?_some hfind
    simpa using this
  have hpmem : p ∈ startup split corpus := List.mem_of_find?_eq_some hfind
  obtain ⟨company, -, heq⟩ := List.mem_filterMap.mp hpmem
  by_cases hskip : company = "" ∨ company = "." ∨ company = "__pycache__"
  · rw [if_pos hskip] at heq; cases heq
  · rw [if_neg hskip] at heq
    by_cases hcont : contaminationDetected company
        (load_and_chunk_documents split (some company) corpus) = true
    · rw [if_pos hcont] at heq; cases heq
    · rw [if_neg hcont] at heq
      have hpair := Option.some.inj heq
      have hco : company = org := by rw [← hp1, ← hpair]
      subst hco
      push_neg at hskip
      refine ⟨hskip.1, hskip.2.1, hskip.2.2, by simpa using hcont, ?_⟩
      rw [← hmap, ← hpair]

/-- The store invariant: after startup, every chunk registered for an
organization carries that organization in its metadata. -/
theorem startup_store_company {split : String → List String} {corpus : List RawDoc}
    {org : String} {S : List Chunk}
    (h : lookupStore (startup split corpus) org = some S) :
    ∀ c ∈ S, c.company = some org := by
  obtain ⟨-, -, -, hcont, hS⟩ := lookupStore_startup h
  rw [hS]
  exact company_eq_of_not_contaminated hcont

-- ---------------------------------------------------------------------------
-- Retrieval lemmas
-- ---------------------------------------------------------------------------

/-- Anything a retriever query returns is an element of the store that
matches the query's metadata filter. -/
theorem mem_getRelevantDocuments {rank1 : List Chunk → List Chunk}
    (hrank : ∀ l x, x ∈ rank1 l → x ∈ l) {store : List Chunk} {f : ChromaFilter}
    {c : Chunk} (hc : c ∈ getRelevantDocuments rank1 store f) :
    c ∈ store ∧ chunkMatches f c = true := by
  unfold getRelevantDocuments at hc
  have h1 : c ∈ rank1 (store.filter (fun c => chunkMatches f c)) :=
    List.take_subset _ _ hc
  have h2 : c ∈ store.filter (fun c => chunkMatches f c) := hrank _ _ h1
  exact ⟨List.mem_of_mem_filter h2, List.of_mem_filter h2⟩

/-- Unpacking membership of a level in `level_docs`: its filter was built by
`levelFilter`, and its document list is the (non-empty) retriever answer. -/
theorem levelDocsOf_mem {rank : String → List Chunk → List Chunk}
    {store : List Chunk} {company : String} {department employee : Option String}
    {question : String} {lvl : LevelKey} {docs : List Chunk}
    (h : (lvl, docs) ∈ levelDocsOf rank store company department employee question) :
    ∃ f, levelFilter company department employee lvl = some f ∧
      docs = getRelevantDocuments (rank question) store f ∧ docs ≠ [] := by
  obtain ⟨key, -, heq⟩ := List.mem_filterMap.mp h
  obtain ⟨f, hf, heq2⟩ := Option.bind_eq_some.mp heq
  by_cases hde : (getRelevantDocuments (rank question) store f).isEmpty
  · simp only [hde, if_true] at heq2; cases heq2
  · simp only [hde, if_false, Bool.false_eq_true] at heq2
    have hpair := Option.some.inj heq2
    have hkey : key = lvl := congrArg Prod.fst hpair
    have hdocs : getRelevantDocuments (rank question) store f = docs :=
      congrArg Prod.snd hpair
    subst hkey
    refine ⟨f, hf, hdocs.symm, ?_⟩
    rw [← hdocs]
    simpa [List.isEmpty_iff] using hde

/-- C1: tenant isolation.  For a store registered for organization `org` by
startup, every chunk of the store carries organization `org`, and every chunk
retrieved at any level (individual, subunit, organization or unscoped) while
answering a query against that store carries organization `org`; hence a
query for one organization never returns another organization's content. -/
theorem c1_tenant_isolation
    (split : String → List String) (corpus : List RawDoc)
    (rank : String → List Chunk → List Chunk) (hrank : ValidRanker rank)
    (org : String) (S : List Chunk)
    (hS : lookupStore (startup split corpus) org = some S)
    (department employee : Option String) (question : String) :
    (∀ c ∈ S, c.company = some org) ∧
    (∀ lvl docs, (lvl, docs) ∈ levelDocsOf rank S org department employee question →
      ∀ c ∈ docs, c.company = some org) := by
  have hstore := startup_store_company hS
  refine ⟨hstore, ?_⟩
  intro lvl docs hmem c hc
  obtain ⟨f, -, hdocs, -⟩ := levelDocsOf_mem hmem
  rw [hdocs] at hc
  exact hstore c (mem_getRelevantDocuments (fun l x hx => hrank question l x hx) hc).1

-- ---------------------------------------------------------------------------
-- C4: level selection
-- ---------------------------------------------------------------------------

/-- C4: level-selection totality.  With a present (truthy) organization, the
selected level list is exactly: organization only → [organization, unscoped];
organization and subunit → [subunit, organization, unscoped]; all three →
[individual, subunit, organization, unscoped], in that order. -/
theorem c4_level_selection (company : String) (department employee : Option String)
    (hc : company ≠ "") :
    (otruthy department = false → otruthy employee = false →
      selectLevels company department employee =
        [LevelKey.company_level, LevelKey.general]) ∧
    (otruthy department = true → otruthy employee = false →
      selectLevels company department employee =
        [LevelKey.department_level, LevelKey.company_level, LevelKey.general]) ∧
    (otruthy department = true → otruthy employee = true →
      selectLevels company department employee =
        [LevelKey.employee_level, LevelKey.department_level,
         LevelKey.company_level, LevelKey.general]) := by
  unfold selectLevels
  refine ⟨?_, ?_, ?_⟩ <;> intro hd he <;> simp [hc, hd, he]

/-- Witness for C4 at a fully concrete request. -/
theorem c4_level_selection_witness :
    selectLevels "c1" (some "d1") (some "e1") =
      [LevelKey.employee_level, LevelKey.department_level,
       LevelKey.company_level, LevelKey.general] :=
  (c4_level_selection "c1" (some "d1") (some "e1") (by decide)).2.2 (by decide) (by decide)

-- ---------------------------------------------------------------------------
-- C5: deduplication
-- ---------------------------------------------------------------------------

/-- C5: deduplication.  Two chunks are duplicates iff their key of (text
content, source, page, organization, subunit, individual) is equal; the code's
first-occurrence deduplication agrees with the spec's keep-first-drop-later
formulation, and deduplicating a list concatenated with itself yields exactly
the deduplication of the list (no growth, no loss). -/
theorem c5_deduplication (L : List Chunk) :
    dedupDocs (L ++ L) = dedupDocs L ∧ dedupDocs L = dedupDocsSpec L :=
  ⟨dedupDocs_self_append L, dedupDocs_eq_spec L⟩

-- ---------------------------------------------------------------------------
-- C6: hierarchy key encoding
-- ---------------------------------------------------------------------------

theorem hierarchyKeyOf_take3 (parts : List String)
    (hne : parts ≠ [])
    (h0 : parts.get? 0 ≠ some unknownCompany)
    (h1 : parts.get? 1 ≠ some unknownDepartment)
    (h2 : parts.get? 2 ≠ some unknownEmployee) :
    hierarchyKeyOf parts =
      match parts.take 3 with
      | [] => none
      | [c] => some c
      | [c, d] => some (c ++ "|" ++ d)
      | c :: d :: e :: _ => some (c ++ "|" ++ d ++ "|" ++ e) := by
  rcases parts with _ | ⟨a, _ | ⟨b, _ | ⟨c, t⟩⟩⟩
  · exact absurd rfl hne
  · have ha : a ≠ unknownCompany := by
      intro h; exact h0 (by simp [h])
    simp [hierarchyKeyOf, companyOf, departmentOf, employeeOf, ha]
  · have hb : b ≠ unknownDepartment := by
      intro h; exact h1 (by simp [h])
    simp [hierarchyKeyOf, companyOf, departmentOf, employeeOf, hb]
  · have hc : c ≠ unknownEmployee := by
      intro h; exact h2 (by simp [h])
    simp [hierarchyKeyOf, companyOf, departmentOf, employeeOf, hc]

/-- C6 counterexample: a document directly at the knowledge-base root has no
present hierarchy level, yet the code assigns it the hierarchy key `"."` (an
artifact of `os.path.relpath` returning `"."` for the root), while the
claimed encoding — present levels joined by `"|"`, absent levels omitted —
yields no key at all. -/
theorem c6_counterexample :
    hierarchyKeyOf (pathPartsOfDir []) = some "." ∧
    hierarchyKeySpecOfParts [] = none ∧
    hierarchyKeyOf (pathPartsOfDir []) ≠ hierarchyKeySpecOfParts [] := by decide

/-- C6 amended: for every document at least one directory deep whose first
three path segments are not the reserved sentinel strings, the hierarchy key
is exactly the present levels joined by `"|"` with absent trailing levels
omitted; and any two paths classified to the same (organization, subunit,
individual) triple produce identical keys unconditionally. -/
theorem c6_hierarchy_key (dirParts : List String)
    (hne : dirParts.filter (fun p => p ≠ "") ≠ [])
    (h0 : (dirParts.filter (fun p => p ≠ "")).get? 0 ≠ some unknownCompany)
    (h1 : (dirParts.filter (fun p => p ≠ "")).get? 1 ≠ some unknownDepartment)
    (h2 : (dirParts.filter (fun p => p ≠ "")).get? 2 ≠ some unknownEmployee) :
    hierarchyKeyOf (pathPartsOfDir dirParts) = hierarchyKeySpecOfParts dirParts ∧
    ∀ p q : List String, hierarchyTriple p = hierarchyTriple q →
      hierarchyKeyOf p = hierarchyKeyOf q := by
  constructor
  · have hparts : pathPartsOfDir dirParts = dirParts.filter (fun p => p ≠ "") := by
      unfold pathPartsOfDir
      rw [if_neg (by simpa [List.isEmpty_iff] using hne)]
    rw [hparts]
    unfold hierarchyKeySpecOfParts
    exact hierarchyKeyOf_take3 _ hne h0 h1 h2
  · intro p q h
    have hcp : companyOf p = companyOf q := congrArg (fun t => t.1) h
    have hdp : departmentOf p = departmentOf q := congrArg (fun t => t.2.1) h
    have hep : employeeOf p = employeeOf q := congrArg (fun t => t.2.2) h
    simp only [hierarchyKeyOf, hcp, hdp, hep]

/-- Witness for C6 at a two-level path. -/
theorem c6_hierarchy_key_witness :
    hierarchyKeyOf (pathPartsOfDir ["c1", "d1"]) = hierarchyKeySpecOfParts ["c1", "d1"] ∧
    hierarchyKeySpecOfParts ["c1", "d1"] = some "c1|d1" :=
  ⟨(c6_hierarchy_key ["c1", "d1"] (by decide) (by decide) (by decide) (by decide)).1,
   by decide⟩

-- ---------------------------------------------------------------------------
-- C1 witness and C10: what ends up in a store
-- ---------------------------------------------------------------------------

/-- Witness for C1: the concrete chunk of the two-organization corpus carries
its organization. -/
theorem c1_tenant_isolation_witness : chunkA.company = some "c1" :=
  (c1_tenant_isolation split1 corpusAB rankId rankId_valid "c1" storeAB
      (by decide) none none "q").1 chunkA (by decide)

theorem stripPdfMetadata_company (c : Chunk) :
    (stripPdfMetadata c).company = c.company := by
  unfold stripPdfMetadata
  split <;> rfl

theorem ensureHierarchyKey_company (c : Chunk) :
    (ensureHierarchyKey c).company = c.company := by
  unfold ensureHierarchyKey
  split <;> rfl

/-- The cleanup loop only ever changes the company field by popping the
`unknown_company` sentinel. -/
theorem cleanupChunk_company (c : Chunk) :
    (cleanupChunk c).company =
      if c.company = some unknownCompany then none else c.company := by
  unfold cleanupChunk
  rw [ensureHierarchyKey_company]
  have hs := stripPdfMetadata_company c
  unfold cleanUnknown
  rw [hs]
  split_ifs <;> simp [hs]

/-- A document directly at the knowledge-base root is classified to the
organization `"."` (the `os.path.relpath` artifact), which the cleanup keeps. -/
theorem rootChunk_company {rd : RawDoc}
    (hroot : rd.dirParts.filter (fun p => p ≠ "") = []) (piece : String) :
    (cleanupChunk (rawChunkOf rd piece)).company = some "." := by
  have hparts : pathPartsOfDir rd.dirParts = ["."] := by
    unfold pathPartsOfDir
    rw [hroot]
    rfl
  have hc : (rawChunkOf rd piece).company = some (companyOf (pathPartsOfDir rd.dirParts)) := rfl
  rw [cleanupChunk_company, hc, hparts]
  decide

/-- C10: a chunk derived from a document located directly at the
knowledge-base root is never an element of any store registered by startup:
startup never registers the organization `"."` that root documents are
classified to, and every registered store's chunks carry the registered
organization. -/
theorem c10_root_documents_never_stored
    (split : String → List String) (corpus : List RawDoc) (org : String)
    (S : List Chunk)
    (hS : lookupStore (startup split corpus) org = some S)
    (rd : RawDoc) (hroot : rd.dirParts.filter (fun p => p ≠ "") = [])
    (piece : String) :
    cleanupChunk (rawChunkOf rd piece) ∉ S := by
  intro hmem
  have hco := startup_store_company hS _ hmem
  rw [rootChunk_company hroot] at hco
  obtain ⟨-, hne, -, -, -⟩ := lookupStore_startup hS
  exact hne (Option.some.inj hco).symm

/-- Witness for C10 on a concrete corpus containing a root-level document. -/
theorem c10_root_documents_never_stored_witness :
    cleanupChunk (rawChunkOf
      { dirParts := [], text := "rootdoc", source := none, page := none } "rootdoc")
      ∉ storeRoot :=
  c10_root_documents_never_stored split1 corpusRoot "c1" storeRoot (by decide)
    { dirParts := [], text := "rootdoc", source := none, page := none } (by decide) "rootdoc"

-- ---------------------------------------------------------------------------
-- C2: the unscoped ("general") level
-- ---------------------------------------------------------------------------

/-- C2 counterexample: in the concrete two-organization corpus, the chunk for
organization `c1` carries hierarchy metadata (`hierarchy_key = "c1"`), yet it
is exactly what the unscoped (`general`) level returns — so the general level
does not match only chunks without hierarchy metadata. -/
theorem c2_counterexample :
    (LevelKey.general, [chunkA]) ∈ levelDocsOf rankId storeAB "c1" none none "q" ∧
    chunkA.hierarchy_key = some "c1" ∧ chunkA.company = some "c1" := by decide

/-- C2 amended: the unscoped (`general`) level is filtered only by
organization equality — it returns exactly the ranked chunks of the store
whose `company` metadata equals the requested organization (hierarchy-scoped
chunks of that organization included), so every chunk it returns still
belongs to the requested organization. -/
theorem c2_general_level (split : String → List String) (corpus : List RawDoc)
    (rank : String → List Chunk → List Chunk) (hrank : ValidRanker rank)
    (org : String) (S : List Chunk)
    (hS : lookupStore (startup split corpus) org = some S)
    (department employee : Option String) (question : String) (docs : List Chunk)
    (h : (LevelKey.general, docs) ∈ levelDocsOf rank S org department employee question) :
    docs = getRelevantDocuments (rank question) S (ChromaFilter.byCompany org) ∧
    ∀ c ∈ docs, c.company = some org := by
  obtain ⟨horg, -, -, -, -⟩ := lookupStore_startup hS
  obtain ⟨f, hf, hdocs, -⟩ := levelDocsOf_mem h
  have hfe : f = ChromaFilter.byCompany org := by
    have hred : levelFilter org department employee LevelKey.general =
        if org ≠ "" then some (ChromaFilter.byCompany org)
        else some ChromaFilter.noFilter := rfl
    rw [hred, if_pos horg] at hf
    exact (Option.some.inj hf).symm
  rw [hfe] at hdocs
  refine ⟨hdocs, ?_⟩
  intro c hc
  rw [hdocs] at hc
  have hm := (mem_getRelevantDocuments (fun l x hx => hrank question l x hx) hc).2
  simpa [chunkMatches] using hm

/-- Witness for C2 (amended) on the concrete corpus. -/
theorem c2_general_level_witness :
    ([chunkA] : List Chunk) =
      getRelevantDocuments (rankId "q") storeAB (ChromaFilter.byCompany "c1") :=
  (c2_general_level split1 corpusAB rankId rankId_valid "c1" storeAB (by decide)
    none none "q" [chunkA] (by decide)).1

-- ---------------------------------------------------------------------------
-- C7, C8, C9: error conditions, empty result, history
-- ---------------------------------------------------------------------------

theorem rank_nil {rank : String → List Chunk → List Chunk}
    (hrank : ValidRanker rank) (q : String) : rank q [] = [] :=
  List.eq_nil_iff_forall_not_mem.mpr (fun x hx => (List.not_mem_nil x) (hrank q [] x hx))

/-- Querying an empty store returns nothing at any level. -/
theorem levelDocsOf_empty_store {rank : String → List Chunk → List Chunk}
    (hrank : ValidRanker rank) (company : String)
    (department employee : Option String) (question : String) :
    levelDocsOf rank [] company department employee question = [] := by
  unfold levelDocsOf
  apply List.filterMap_eq_nil_iff.mpr
  intro key hkey
  cases hf : levelFilter company department employee key with
  | none => simp
  | some f =>
    have hg : getRelevantDocuments (rank question) [] f = [] := by
      unfold getRelevantDocuments
      rw [List.filter_nil, rank_nil hrank]
      rfl
    simp [hg]

/-- C7 counterexample: with an entirely empty registry (a legitimate state —
e.g. an empty knowledge base after a successful startup), a request for an
organization that has no TenantStore fails with the service-unavailable
error (HTTP 503), not with the unknown-organization not-found error. -/
theorem c7_counterexample :
    chat_endpoint rankId (some llmK) [] "q" [] "c1" none none =
      Except.error ChatError.serviceUnavailable ∧
    chat_endpoint rankId (some llmK) [] "q" [] "c1" none none ≠
      Except.error ChatError.unknownOrganization := by
  refine ⟨rfl, ?_⟩
  intro h
  simp [chat_endpoint, lookupStore] at h

/-- C7 amended: provided the service is initialized with at least one store,
a request whose organization has no TenantStore fails with the
unknown-organization (not-found) error, with no retrieval performed; this is
distinct from an existing-but-empty store, which yields the canonical
no-information result instead of an error. -/
theorem c7_unknown_organization
    (rank : String → List Chunk → List Chunk) (hrank : ValidRanker rank)
    (llm : List Message → String) (registry : List (String × List Chunk))
    (question : String) (history : List (String × String))
    (company : String) (department employee : Option String)
    (hne : registry ≠ []) :
    (lookupStore registry company = none →
      chat_endpoint rank (some llm) registry question history company department employee =
        Except.error ChatError.unknownOrganization) ∧
    (lookupStore registry company = some [] →
      chat_endpoint rank (some llm) registry question history company department employee =
        Except.ok { answer := noInfoAnswer,
                    chat_history := history ++ [(question, noInfoAnswer)] }) := by
  have hg : ¬ (registry.isEmpty = true ∨ (Option.some llm).isNone = true) := by
    simp [List.isEmpty_iff, hne]
  constructor
  · intro hlk
    unfold chat_endpoint
    rw [if_neg hg, hlk]
  · intro hlk
    unfold chat_endpoint
    rw [if_neg hg, hlk]
    simp only [levelDocsOf_empty_store hrank]
    rfl

/-- Witness for C7 (amended): both branches on a concrete one-store registry. -/
theorem c7_unknown_organization_witness :
    chat_endpoint rankId (some llmK) [("c1", [])] "q" [] "zzz" none none =
      Except.error ChatError.unknownOrganization :=
  (c7_unknown_organization rankId rankId_valid llmK [("c1", [])] "q" [] "zzz"
    none none (by decide)).1 (by decide)

/-- C8: if the organization's store exists and zero chunks survive
deduplication across all queried levels, the endpoint returns the canonical
"no relevant information" answer as a successful value (with the exchange
appended to the history) — not an error and not an empty context.  The
`some llm` argument expresses the service-readiness guard of api.py lines
142-146 (`llm_instance` initialized), which every request must pass. -/
theorem c8_no_information_result
    (rank : String → List Chunk → List Chunk) (llm : List Message → String)
    (registry : List (String × List Chunk)) (question : String)
    (history : List (String × String)) (company : String)
    (department employee : Option String) (S : List Chunk)
    (hS : lookupStore registry company = some S)
    (hzero : dedupDocs (((levelDocsOf rank S company department employee question).map
        (fun p => p.2)).flatten) = []) :
    chat_endpoint rank (some llm) registry question history company department employee =
      Except.ok { answer := noInfoAnswer,
                  chat_history := history ++ [(question, noInfoAnswer)] } := by
  have hne : registry ≠ [] := by
    intro h
    rw [h] at hS
    simp [lookupStore] at hS
  have hg : ¬ (registry.isEmpty = true ∨ (Option.some llm).isNone = true) := by
    simp [List.isEmpty_iff, hne]
  unfold chat_endpoint
  rw [if_neg hg, hS]
  simp only [hzero]
  rfl

/-- Witness for C8 on a registry holding one existing-but-empty store. -/
theorem c8_no_information_result_witness :
    chat_endpoint rankId (some llmK) [("c1", [])] "q" [] "c1" none none =
      Except.ok { answer := noInfoAnswer,
                  chat_history := [("q", noInfoAnswer)] } :=
  c8_no_information_result rankId llmK [("c1", [])] "q" [] "c1" none none []
    (by decide) (by decide)

/-- C9: history is appended, not mutated.  Every successful answer returns a
history equal to the input history with exactly the one new
(question, answer) pair appended at the end (the input value itself is a
pure value and is unchanged). -/
theorem c9_history_appended
    (rank : String → List Chunk → List Chunk)
    (llm? : Option (List Message → String))
    (registry : List (String × List Chunk)) (question : String)
    (history : List (String × String)) (company : String)
    (department employee : Option String) (r : ChatResponse)
    (hok : chat_endpoint rank llm? registry question history company department employee =
      Except.ok r) :
    r.chat_history = history ++ [(question, r.answer)] := by
  unfold chat_endpoint at hok
  split at hok
  · cases hok
  · split at hok
    · cases hok
    · simp only [] at hok
      split at hok
      · injection hok with h
        rw [← h]
      · injection hok with h
        rw [← h]

/-- Witness for C9 on a concrete successful request. -/
theorem c9_history_appended_witness :
    ([("q", noInfoAnswer)] : List (String × String)) =
      [] ++ [("q", (ChatResponse.mk noInfoAnswer [("q", noInfoAnswer)]).answer)] :=
  c9_history_appended rankId (some llmK) [("c1", [])] "q" [] "c1" none none
    (ChatResponse.mk noInfoAnswer [("q", noInfoAnswer)]) (by decide)

-- ---------------------------------------------------------------------------
-- C3: result shaping
-- ---------------------------------------------------------------------------

/-- The emission loop of api.py lines 263-285 iterates the fixed
most-to-least-specific order and looks each level up in `level_docs`; when
the recorded levels come from a generator applied along a sublist of that
order (with matching keys and non-empty document lists), this renders
exactly the recorded levels in order. -/
theorem sections_of_sublist
    (g : LevelKey → Option (LevelKey × List Chunk))
    (hg : ∀ k p, g k = some p → p.1 = k ∧ p.2.isEmpty = false) :
    ∀ (master keys : List LevelKey), keys.Sublist master → master.Nodup →
      (master.filterMap (fun key =>
        match (keys.filterMap g).find? (fun p => decide (p.1 = key)) with
        | some p => if p.2.isEmpty then none
                    else some (sectionLabel key ++ joinContents p.2)
        | none => none)) =
      (keys.filterMap g).map (fun p => sectionLabel p.1 ++ joinContents p.2) := by
  intro master
  induction master with
  | nil =>
    intro keys hsub _
    rw [List.sublist_nil.mp hsub]
    rfl
  | cons m ms ih =>
    intro keys hsub hnd
    have hndms : ms.Nodup := hnd.of_cons
    have hmnot : m ∉ ms := (List.nodup_cons.mp hnd).1
    cases hsub with
    | cons _ hsub2 =>
      have hmkeys : m ∉ keys := fun hm => hmnot (hsub2.subset hm)
      have hfind : (keys.filterMap g).find? (fun p => decide (p.1 = m)) = none := by
        apply List.find?_eq_none.mpr
        intro p hp
        obtain ⟨k, hk, hgk⟩ := List.mem_filterMap.mp hp
        have hk1 := (hg k p hgk).1
        simp only [decide_eq_true_eq]
        intro he
        exact hmkeys (by rw [← he, hk1]; exact hk)
      rw [List.filterMap_cons, hfind]
      exact ih keys hsub2 hndms
    | cons₂ _ hsub2 =>
      rename_i ks
      have hmks : m ∉ ks := fun hm => hmnot (hsub2.subset hm)
      cases hgm : g m with
      | none =>
        have hlds : (m :: ks).filterMap g = ks.filterMap g := by
          rw [List.filterMap_cons, hgm]
        rw [hlds, List.filterMap_cons]
        have hfind : (ks.filterMap g).find? (fun p => decide (p.1 = m)) = none := by
          apply List.find?_eq_none.mpr
          intro p hp
          obtain ⟨k, hk, hgk⟩ := List.mem_filterMap.mp hp
          have hk1 := (hg k p hgk).1
          simp only [decide_eq_true_eq]
          intro he
          exact hmks (by rw [← he, hk1]; exact hk)
        rw [hfind]
        exact ih ks hsub2 hndms
      | some p =>
        obtain ⟨hp1, hp2⟩ := hg m p hgm
        have hlds : (m :: ks).filterMap g = p :: ks.filterMap g := by
          rw [List.filterMap_cons, hgm]
        rw [hlds, List.filterMap_cons]
        have hpos : (fun q => decide (q.1 = m)) p = true := by
          simp [hp1]
        have hfp := @List.find?_cons_of_pos (LevelKey × List Chunk)
          (fun q => decide (q.1 = m)) p (ks.filterMap g) hpos
        rw [hfp]
        have htail : ms.filterMap (fun key =>
            match (p :: ks.filterMap g).find? (fun q => decide (q.1 = key)) with
            | some q => if q.2.isEmpty then none
                        else some (sectionLabel key ++ joinContents q.2)
            | none => none) =
          ms.filterMap (fun key =>
            match (ks.filterMap g).find? (fun q => decide (q.1 = key)) with
            | some q => if q.2.isEmpty then none
                        else some (sectionLabel key ++ joinContents q.2)
            | none => none) := by
          apply List.filterMap_congr
          intro key hkey
          have hneq : ¬ ((fun q => decide (q.1 = key)) p = true) := by
            simp only [decide_eq_true_eq]
            rw [hp1]
            intro he
            exact hmnot (he ▸ hkey)
          have hfn := @List.find?_cons_of_neg (LevelKey × List Chunk)
            (fun q => decide (q.1 = key)) p (ks.filterMap g) hneq
          rw [hfn]
        simp only [hp2, Bool.false_eq_true, if_false, htail, List.map_cons, hp1]
        rw [ih ks hsub2 hndms]

/-- The selected levels are always listed in the fixed most-to-least-specific
order. -/
theorem selectLevels_sublist (company : String) (department employee : Option String) :
    (selectLevels company department employee).Sublist sectionOrder := by
  unfold selectLevels sectionOrder
  split_ifs <;> decide

/-- The context emitted by api.py lines 256-285 is exactly one labeled
section per level recorded in `level_docs`, in most-to-least-specific order,
each concatenating that level's raw retrieved documents. -/
theorem contextSections_levelDocsOf (rank : String → List Chunk → List Chunk)
    (store : List Chunk) (company : String) (department employee : Option String)
    (question : String) :
    contextSections (levelDocsOf rank store company department employee question) =
      (levelDocsOf rank store company department employee question).map
        (fun p => sectionLabel p.1 ++ joinContents p.2) := by
  have hg : ∀ k p, ((fun key => (levelFilter company department employee key).bind
      (fun f =>
        let docs := getRelevantDocuments (rank question) store f
        if docs.isEmpty then none else some (key, docs))) k) = some p →
      p.1 = k ∧ p.2.isEmpty = false := by
    intro k p h
    obtain ⟨f, -, h2⟩ := Option.bind_eq_some.mp h
    by_cases hde : (getRelevantDocuments (rank question) store f).isEmpty
    · simp only [hde, if_true] at h2
      cases h2
    · simp only [hde, Bool.false_eq_true, if_false] at h2
      obtain rfl : (k, getRelevantDocuments (rank question) store f) = p :=
        Option.some.inj h2
      exact ⟨rfl, by simpa using hde⟩
  exact sections_of_sublist _ hg sectionOrder
    (selectLevels company department employee)
    (selectLevels_sublist company department employee) (by decide)

/-- C3 counterexample: in the concrete one-document corpus, the single chunk
is retrieved both at the organization level and at the unscoped level; only
one occurrence survives deduplication, yet the code emits two sections, both
containing the chunk — the emitted context is built from the raw per-level
lists, not from the deduplication survivors. -/
theorem c3_counterexample :
    contextSections (levelDocsOf rankId storeAB "c1" none none "q") ≠
      contextSectionsSpec (levelDocsOf rankId storeAB "c1" none none "q") ∧
    (contextSections (levelDocsOf rankId storeAB "c1" none none "q")).length = 2 ∧
    (contextSectionsSpec (levelDocsOf rankId storeAB "c1" none none "q")).length = 1 ∧
    (dedupDocs (((levelDocsOf rankId storeAB "c1" none none "q").map
        (fun p => p.2)).flatten)).length = 1 := by decide

/-- C3 amended: for every request that produces an answer, the output context
is built from all retrieved chunks — deduplication only decides the
empty-result short-circuit — grouped by the level they were retrieved from,
concatenated within each group, and emitted as labeled sections ordered from
most to least specific with empty groups omitted (a chunk retrieved at
several levels appears in each of those sections). -/
theorem c3_result_shaping
    (rank : String → List Chunk → List Chunk) (llm : List Message → String)
    (registry : List (String × List Chunk)) (question : String)
    (history : List (String × String)) (company : String)
    (department employee : Option String) (S : List Chunk)
    (hS : lookupStore registry company = some S)
    (hsome : dedupDocs (((levelDocsOf rank S company department employee question).map
        (fun p => p.2)).flatten) ≠ []) :
    chat_endpoint rank (some llm) registry question history company department employee =
      (let sections := (levelDocsOf rank S company department employee question).map
          (fun p => sectionLabel p.1 ++ joinContents p.2)
       let answer := llm (buildMessages company (contextTextOf sections) question history)
       Except.ok { answer := answer
                   chat_history := history ++ [(question, answer)] }) := by
  have hne : registry ≠ [] := by
    intro h
    rw [h] at hS
    simp [lookupStore] at hS
  have hg : ¬ (registry.isEmpty = true ∨ (Option.some llm).isNone = true) := by
    simp [List.isEmpty_iff, hne]
  have hie : (dedupDocs (((levelDocsOf rank S company department employee question).map
      (fun p => p.2)).flatten)).isEmpty = false := by
    cases hd : dedupDocs (((levelDocsOf rank S company department employee question).map
        (fun p => p.2)).flatten) with
    | nil => exact absurd hd hsome
    | cons a t => rfl
  unfold chat_endpoint
  rw [if_neg hg, hS]
  simp only [hie, Bool.false_eq_true, if_false]
  rw [contextSections_levelDocsOf]
  rfl

/-- Witness for C3 (amended) on the concrete corpus. -/
theorem c3_result_shaping_witness :
    chat_endpoint rankId (some llmK) (startup split1 corpusAB) "q" [] "c1" none none =
      (let sections := (levelDocsOf rankId storeAB "c1" none none "q").map
          (fun p => sectionLabel p.1 ++ joinContents p.2)
       let answer := llmK (buildMessages "c1" (contextTextOf sections) "q" [])
       Except.ok { answer := answer
                   chat_history := [] ++ [("q", answer)] }) :=
  c3_result_shaping rankId llmK (startup split1 corpusAB) "q" [] "c1" none none
    storeAB (by decide) (by decide)

end Rag
